import Mathlib

/-!
Verification of the HybridLM request-processing pipeline: the query router
(complexity scoring, routing decision, cache-key derivation), the SLM ensemble
engine (series strategy and result aggregation), and the semantic cache
(cosine-similarity lookup).

Modelling conventions.
* Go `float64` values produced by exact decimal literals, integer casts,
  additions, multiplications and comparisons are modelled by `ℚ` (the code's
  claims concern comparisons and exact constants, not rounding behaviour).
  Where a Go float expression can become non-finite (NaN or an infinity) the
  model uses `Option ℚ`, `none` standing for a non-finite value; `none`
  propagates through addition and multiplication exactly as NaN/infinities
  propagate through IEEE-754 arithmetic in the expressions modelled here.
* Go strings are modelled as `String` / `List Char`; `len` of a Go string is
  its UTF-8 byte count, modelled by `utf8Length`.
* The Unicode classifier functions (`unicode.IsSpace`, `unicode.IsPunct`,
  `strings.ToLower`) are modelled on the Latin-1 range, which covers every
  character appearing in the concrete inputs used below; outside that range
  the Go originals consult full Unicode tables.
-/

/-- Character model of Go `unicode.IsSpace` (Latin-1 range): space, tab,
newline, vertical tab, form feed, carriage return, NEL and NBSP. -/
def goIsSpace (c : Char) : Bool :=
  c.toNat = 32 || (9 ≤ c.toNat && c.toNat ≤ 13) || c.toNat = 133 || c.toNat = 160

/-- Character model of Go `unicode.ToLower` on the ASCII range, as used by
`strings.ToLower`. -/
def goToLowerChar (c : Char) : Char :=
  if 65 ≤ c.toNat ∧ c.toNat ≤ 90 then Char.ofNat (c.toNat + 32) else c

/-- Model of Go `strings.ToLower` on a rune sequence. -/
def goToLower (s : List Char) : List Char :=
  s.map goToLowerChar

/-- Character model of Go `unicode.IsPunct` on the ASCII range: the code
points of Unicode category P that are below 128 (note that `$ + < = > ^`,
backquote, `|` and `~` are category S, not P). -/
def goIsPunct (c : Char) : Bool :=
  [33, 34, 35, 37, 38, 39, 40, 41, 42, 44, 45, 46, 47, 58, 59, 63, 64,
   91, 92, 93, 95, 123, 125].contains c.toNat

/-- Accumulator pass of `fields`: `acc` holds the current word reversed. -/
def fieldsAux : List Char → List Char → List (List Char)
  | [], acc => if acc.isEmpty then [] else [acc.reverse]
  | c :: cs, acc =>
    if goIsSpace c then
      if acc.isEmpty then fieldsAux cs [] else acc.reverse :: fieldsAux cs []
    else fieldsAux cs (c :: acc)

/-- Model of Go `strings.Fields`: split around maximal runs of white space. -/
def fields (s : List Char) : List (List Char) :=
  fieldsAux s []

/-- UTF-8 encoding of a code point, as a list of byte values. -/
def utf8Encode (n : ℕ) : List ℕ :=
  if n < 128 then [n]
  else if n < 2048 then [192 + n / 64, 128 + n % 64]
  else if n < 65536 then [224 + n / 4096, 128 + n / 64 % 64, 128 + n % 64]
  else [240 + n / 262144, 128 + n / 4096 % 64, 128 + n / 64 % 64, 128 + n % 64]

/-- Byte sequence of a rune sequence under UTF-8 — the Go `[]byte` view of a
string. -/
def utf8Bytes : List Char → List ℕ
  | [] => []
  | c :: cs => utf8Encode c.toNat ++ utf8Bytes cs

/-- Byte length of a rune sequence — Go `len` applied to the string. -/
def utf8Length (s : List Char) : ℕ :=
  (utf8Bytes s).length

/-- Model of `models.QueryMetrics` (`src/models/types.go`).  `tokenCount` and
`queryLength` are Go `int`s, `complexity` a `float64`. -/
structure QueryMetrics where
  tokenCount : ℤ
  complexity : ℚ
  hasContext : Bool
  queryLength : ℤ
deriving DecidableEq, Repr

/-- Model of `models.RoutingDecision` (`src/models/types.go`). -/
structure RoutingDecision where
  useLLM : Bool
  reason : String
  confidence : ℚ
  complexityScore : ℚ
deriving DecidableEq, Repr

/-- Model of `HybridRoutingStrategy.Decide` (`src/router/routing_strategy.go`):
multi-factor routing decision, first matching rule wins.  The strategy's
configuration is the `complexity_threshold` field of `config.RouterConfig`. -/
def HybridRoutingStrategy.Decide (complexityThreshold : ℚ) (m : QueryMetrics) :
    RoutingDecision :=
  if m.complexity > complexityThreshold then
    { useLLM := true, reason := "High complexity query requires LLM reasoning",
      confidence := 0.9, complexityScore := m.complexity }
  else if m.tokenCount > 100 then
    { useLLM := true, reason := "Long query requires cloud LLM processing",
      confidence := 0.85, complexityScore := m.complexity }
  else if m.hasContext then
    { useLLM := true, reason := "Context-aware query routed to LLM",
      confidence := 0.8, complexityScore := m.complexity }
  else
    { useLLM := false, reason := "Simple query suitable for edge SLM",
      confidence := 0.95, complexityScore := m.complexity }

/-- Trigger keywords of `QueryRouter.calculateComplexity`
(`src/router/query_router.go`). -/
def complexityKeywords : List (List Char) :=
  ["explain".toList, "analyze".toList, "compare".toList, "evaluate".toList,
   "why".toList, "how does".toList, "what if".toList, "reasoning".toList,
   "detailed".toList]

/-- Keyword component of `QueryRouter.calculateComplexity`: the source loops
over the nine keywords and adds `0.15` once for each keyword contained in the
lowercased query (`strings.Contains`). -/
def keywordScore (q : List Char) : ℚ :=
  complexityKeywords.foldl
    (fun acc kw => if kw <:+: goToLower q then acc + 0.15 else acc) 0

/-- Non-finite-aware float addition: `none` models a NaN or infinite
`float64`, which IEEE-754 addition propagates. -/
def gadd : Option ℚ → Option ℚ → Option ℚ
  | some a, some b => some (a + b)
  | _, _ => none

/-- Non-finite-aware float multiplication; a NaN or infinite operand yields a
non-finite result for the operand shapes occurring below. -/
def gmul : Option ℚ → ℚ → Option ℚ
  | some a, b => some (a * b)
  | none, _ => none

/-- Go float division `a / b`: finite exactly when the divisor is non-zero
(`0/0` is NaN, `a/0` an infinity). -/
def gdiv (a b : ℚ) : Option ℚ :=
  if b = 0 then none else some (a / b)

/-- Model of `QueryRouter.calculateComplexity` (`src/router/query_router.go`).
Length factor capped at 1, word-diversity ratio (a float division that is
non-finite when the query has no words), keyword score, punctuation factor
capped at 0.3, combined as `0.3·length + 0.3·diversity + 0.3·keyword +
0.1·punct`.  The result is `none` exactly when the Go code computes NaN. -/
def calculateComplexity (q : List Char) : Option ℚ :=
  let lengthScore0 : ℚ := (utf8Length q : ℚ) / 1000
  let lengthScore : ℚ := if lengthScore0 > 1 then 1 else lengthScore0
  let words := fields (goToLower q)
  let uniqueWords := words.dedup
  let diversityScore : Option ℚ := gdiv (uniqueWords.length : ℚ) (words.length : ℚ)
  let punctCount : ℕ := (q.filter goIsPunct).length
  let punctScore0 : ℚ := (punctCount : ℚ) / 100
  let punctScore : ℚ := if punctScore0 > 0.3 then 0.3 else punctScore0
  gadd (gadd (gadd (some (lengthScore * 0.3)) (gmul diversityScore 0.3))
      (some (keywordScore q * 0.3)))
    (some (punctScore * 0.1))

/-- Model of `QueryRouter.analyzeQuery` (`src/router/query_router.go`) for the
metric fields that the routing decision reads: token count is the
whitespace-split word count, context presence is non-emptiness of the request
context.  The complexity is `analyzeQuery`'s `calculateComplexity` value when
finite. -/
def analyzeTokenCount (q : List Char) : ℤ :=
  (fields q).length

/-- Byte values of the little-endian 4-byte serialization of a 32-bit word,
as `crypto/md5` emits the state words. -/
def le4 (n : ℕ) : List ℕ :=
  [n % 256, n / 256 % 256, n / 65536 % 256, n / 16777216 % 256]

/-- Byte values of the little-endian 8-byte serialization of the 64-bit
message bit length used by MD5 padding. -/
def le8 (n : ℕ) : List ℕ :=
  le4 (n % 4294967296) ++ le4 (n / 4294967296 % 4294967296)

/-- Rotate a 32-bit word left by `s` bits. -/
def rotl32 (x s : ℕ) : ℕ :=
  (x * 2 ^ s + x / 2 ^ (32 - s)) % 4294967296

/-- Bitwise complement of a 32-bit word. -/
def not32 (x : ℕ) : ℕ :=
  4294967295 - x % 4294967296

/-- Round-shift table of MD5 (RFC 1321). -/
def md5S : List ℕ :=
  [7, 12, 17, 22, 7, 12, 17, 22, 7, 12, 17, 22, 7, 12, 17, 22,
   5, 9, 14, 20, 5, 9, 14, 20, 5, 9, 14, 20, 5, 9, 14, 20,
   4, 11, 16, 23, 4, 11, 16, 23, 4, 11, 16, 23, 4, 11, 16, 23,
   6, 10, 15, 21, 6, 10, 15, 21, 6, 10, 15, 21, 6, 10, 15, 21]

/-- Sine-derived constant table of MD5 (RFC 1321): `⌊2³² · |sin(i+1)|⌋`. -/
def md5K : List ℕ :=
  [3614090360, 3905402710, 606105819, 3250441966, 4118548399, 1200080426, 2821735955, 4249261313,
   1770035416, 2336552879, 4294925233, 2304563134, 1804603682, 4254626195, 2792965006, 1236535329,
   4129170786, 3225465664, 643717713, 3921069994, 3593408605, 38016083, 3634488961, 3889429448,
   568446438, 3275163606, 4107603335, 1163531501, 2850285829, 4243563512, 1735328473, 2368359562,
   4294588738, 2272392833, 1839030562, 4259657740, 2763975236, 1272893353, 4139469664, 3200236656,
   681279174, 3936430074, 3572445317, 76029189, 3654602809, 3873151461, 530742520, 3299628645,
   4096336452, 1126891415, 2878612391, 4237533241, 1700485571, 2399980690, 4293915773, 2240044497,
   1873313359, 4264355552, 2734768916, 1309151649, 4149444226, 3174756917, 718787259, 3951481745]

/-- Group a byte list into little-endian 32-bit message words. -/
def md5Words : List ℕ → List ℕ
  | b0 :: b1 :: b2 :: b3 :: rest =>
    (b0 + 256 * (b1 + 256 * (b2 + 256 * b3))) :: md5Words rest
  | _ => []

/-- Single MD5 round `i` acting on the running state `(A, B, C, D)` with
message words `M`. -/
def md5Step (M : List ℕ) (st : ℕ × ℕ × ℕ × ℕ) (i : ℕ) : ℕ × ℕ × ℕ × ℕ :=
  let A := st.1
  let B := st.2.1
  let C := st.2.2.1
  let D := st.2.2.2
  let fg : ℕ × ℕ :=
    if i < 16 then ((B &&& C) ||| (not32 B &&& D), i)
    else if i < 32 then ((D &&& B) ||| (not32 D &&& C), (5 * i + 1) % 16)
    else if i < 48 then (B ^^^ C ^^^ D, (3 * i + 5) % 16)
    else (C ^^^ (B ||| not32 D), 7 * i % 16)
  let f := (fg.1 + A + md5K.getD i 0 + M.getD fg.2 0) % 4294967296
  (D, (B + rotl32 f (md5S.getD i 0)) % 4294967296, B, C)

/-- Process one 64-byte MD5 block, adding the round output to the incoming
state. -/
def md5Block (st : ℕ × ℕ × ℕ × ℕ) (chunk : List ℕ) : ℕ × ℕ × ℕ × ℕ :=
  let M := md5Words chunk
  let r := (List.range 64).foldl (md5Step M) st
  ((st.1 + r.1) % 4294967296, (st.2.1 + r.2.1) % 4294967296,
   (st.2.2.1 + r.2.2.1) % 4294967296, (st.2.2.2 + r.2.2.2) % 4294967296)

/-- Fold the MD5 block function over a padded message; the fuel argument (any
bound on the number of 64-byte blocks, here the byte count itself) makes the
recursion structural.  Each step consumes 64 bytes, so the fuel never runs
out before the message does. -/
def md5BlocksFuel : ℕ → ℕ × ℕ × ℕ × ℕ → List ℕ → ℕ × ℕ × ℕ × ℕ
  | 0, st, _ => st
  | fuel + 1, st, bytes =>
    if bytes = [] then st
    else md5BlocksFuel fuel (md5Block st (bytes.take 64)) (bytes.drop 64)

/-- Fold the MD5 block function over a padded message. -/
def md5Blocks (st : ℕ × ℕ × ℕ × ℕ) (bytes : List ℕ) : ℕ × ℕ × ℕ × ℕ :=
  md5BlocksFuel bytes.length st bytes

/-- MD5 padding: a `0x80` byte, zeros to 56 mod 64, then the bit length in
little-endian 64-bit form. -/
def md5Pad (msg : List ℕ) : List ℕ :=
  let zeros := (120 - (msg.length + 1) % 64) % 64
  msg ++ 128 :: List.replicate zeros 0 ++ le8 (8 * msg.length % 18446744073709551616)

/-- MD5 digest of a byte sequence, as 16 byte values — the model of
`md5.Sum` (`crypto/md5`). -/
def md5Bytes (msg : List ℕ) : List ℕ :=
  let st := md5Blocks (1732584193, 4023233417, 2562383102, 271733878) (md5Pad msg)
  le4 st.1 ++ le4 st.2.1 ++ le4 st.2.2.1 ++ le4 st.2.2.2

/-- Lowercase hexadecimal digit of a value below 16. -/
def hexDigit (n : ℕ) : Char :=
  if n < 10 then Char.ofNat (48 + n) else Char.ofNat (87 + n)

/-- Lowercase hexadecimal rendering of a byte sequence — the model of
`hex.EncodeToString` (`encoding/hex`), high nibble first. -/
def hexBytes : List ℕ → List Char
  | [] => []
  | b :: bs => hexDigit (b / 16 % 16) :: hexDigit (b % 16) :: hexBytes bs

/-- Model of `models.InferenceRequest` (`src/models/types.go`). -/
structure InferenceRequest where
  query : String
  context : String
  maxTokens : ℤ
  temperature : ℚ
  metadata : List (String × String)
deriving DecidableEq, Repr

/-- Model of `QueryRouter.GenerateCacheKey` (`src/router/query_router.go`):
`"inference:"` followed by the lowercase hex MD5 digest of
`query + "|" + context`. -/
def GenerateCacheKey (req : InferenceRequest) : String :=
  "inference:" ++ String.mk (hexBytes (md5Bytes (utf8Bytes (req.query ++ "|" ++ req.context).toList)))

/-- Model of the `inferenceResult` record of `src/inference/slm_engine.go`. -/
structure inferenceResult where
  modelName : String
  response : String
  weight : ℚ
  err : Option String
deriving DecidableEq, Repr, Inhabited

/-- Insertion of an element into a list sorted in descending key order.  Go's
`sort.Slice` with comparator `key i > key j` produces a list sorted this way;
every theorem below relies only on the sorted-permutation contract of
`sort.Slice` (which is documented as unstable), never on tie order. -/
def insertDescBy {α : Type} (key : α → ℚ) (a : α) : List α → List α
  | [] => [a]
  | b :: bs => if key a > key b then a :: b :: bs else b :: insertDescBy key a bs

/-- Sort in descending key order (model of `sort.Slice` with comparator
`key i > key j`). -/
def sortDescBy {α : Type} (key : α → ℚ) : List α → List α
  | [] => []
  | a :: as => insertDescBy key a (sortDescBy key as)

/-- Model of `SLMEngine.aggregateWeighted` (`src/inference/slm_engine.go`):
sort by descending weight and take the first response. -/
def aggregateWeighted (results : List inferenceResult) : String :=
  ((sortDescBy (fun r => r.weight) results).headD default).response

/-- Model of `SLMEngine.aggregateLongest`: sort by descending response byte
length and take the first response. -/
def aggregateLongest (results : List inferenceResult) : String :=
  ((sortDescBy (fun r => (r.response.utf8ByteSize : ℚ)) results).headD default).response

/-- Model of `SLMEngine.calculateSimilarity`: tokenize both strings to
lowercased whitespace-split words; `common` counts the tokens of the second
string (with multiplicity) whose value occurs among the first string's
tokens; the score is `common / (len₁ + len₂ - common)`, `0` when either side
has no tokens. -/
def calculateSimilarity (s1 s2 : String) : ℚ :=
  let words1 := fields (goToLower s1.toList)
  let words2 := fields (goToLower s2.toList)
  if words1.length = 0 ∨ words2.length = 0 then 0
  else
    let common := (words2.filter (fun w => words1.contains w)).length
    let union : ℤ := (words1.length : ℤ) + (words2.length : ℤ) - (common : ℤ)
    if union = 0 then 0 else (common : ℚ) / (union : ℚ)

/-- Score assigned to entry `i` (holding result `r1`) by
`SLMEngine.aggregateVoting`: the base weight plus, for every other index `j`,
`similarity(r_i, r_j) · weight_j`. -/
def votingScore (results : List inferenceResult) (i : ℕ) (r1 : inferenceResult) : ℚ :=
  results.enum.foldl
    (fun acc jr =>
      if jr.1 = i then acc
      else acc + calculateSimilarity r1.response jr.2.response * jr.2.weight)
    r1.weight

/-- Model of `SLMEngine.aggregateVoting`: a single result is returned as is;
otherwise all results are scored by `votingScore`, sorted by descending
score, and the first response is returned. -/
def aggregateVoting (results : List inferenceResult) : String :=
  if results.length = 1 then (results.headD default).response
  else
    let scores := results.enum.map (fun p => (p.2, votingScore results p.1 p.2))
    ((sortDescBy (fun s => s.2) scores).headD (default, 0)).1.response

/-- Model of `SLMEngine.aggregateResults` (`src/inference/slm_engine.go`).
One pass over the results keeps those with no error and a non-empty response
and collects `"name: err"` messages for those that did error; if nothing
survives the call fails with `AllModelsFailed`, otherwise the configured
aggregation function (default `weighted`) picks the response. -/
def aggregateResults (aggregationFn : String) (results : List inferenceResult) :
    Except String String :=
  let validResults := results.filter (fun r => r.err.isNone && !(r.response == ""))
  let errorMessages := results.filterMap (fun r => r.err.map (fun e => r.modelName ++ ": " ++ e))
  if validResults.length = 0 then
    let errorDetail :=
      if errorMessages.length = 0 then ""
      else " - Errors: " ++ String.intercalate "; " errorMessages
    Except.error ("all models failed to generate responses" ++ errorDetail)
  else if aggregationFn = "weighted" then Except.ok (aggregateWeighted validResults)
  else if aggregationFn = "longest" then Except.ok (aggregateLongest validResults)
  else if aggregationFn = "voting" then Except.ok (aggregateVoting validResults)
  else Except.ok (aggregateWeighted validResults)

/-- Behaviour of one model adapter: the response text or the error produced by
`SLMEngine.runModel` for a given prompt (the upstream call is external, so a
series run is parameterized by these outcome functions). -/
def Adapter : Type :=
  String → Except String String

/-- Model of `SLMEngine.buildPrompt`. -/
def buildPrompt (query context : String) : String :=
  if context ≠ "" then "Context: " ++ context ++ "\n\nQuestion: " ++ query
  else query

/-- Refinement prompt of `SLMEngine.inferSeries`. -/
def refinementPrompt (query prev : String) : String :=
  "Original query: " ++ query ++ "\n\nPrevious response: " ++ prev ++
    "\n\nPlease refine and improve the above response, making it more accurate and comprehensive:"

/-- Refinement stage loop of `SLMEngine.inferSeries`: each adapter is invoked
with the refinement prompt built from the latest successful response; the
first failure stops the loop and keeps the current response. -/
def seriesLoop (query : String) : List Adapter → String → String
  | [], response => response
  | b :: bs, response =>
    match b (refinementPrompt query response) with
    | Except.error _ => response
    | Except.ok refined => seriesLoop query bs refined

/-- Model of `SLMEngine.inferSeries`: the first configured adapter gets the
built prompt; a failure there is fatal, otherwise the remaining adapters
refine the response in sequence.  (`NewSLMEngine` rejects an empty model
list, so the adapter list is non-empty `a :: rest`.) -/
def inferSeries (a : Adapter) (rest : List Adapter) (query context : String) :
    Except String String :=
  match a (buildPrompt query context) with
  | Except.error e => Except.error ("first model failed: " ++ e)
  | Except.ok response => Except.ok (seriesLoop query rest response)

/-- Model of `cache.CachedEntry` (`src/cache/semantic_cache.go`): the cached
query, its embedding (empty for entries stored without one), and the cached
response, here an opaque payload string.  The `cached_at` timestamp is not
read by the similarity scan and is omitted. -/
structure CachedEntry where
  query : String
  embedding : List ℚ
  response : String
deriving Repr

/-- Model of `models.SemanticCacheResult`. -/
structure SemanticCacheResult where
  response : String
  similarity : ℝ
  cacheKey : String

/-- Model of `cosineSimilarity` (`src/cache/semantic_cache.go`): `0` when the
lengths differ, otherwise dot product over the product of Euclidean norms,
`0` when either norm vanishes.  The float accumulations are modelled exactly
over `ℚ`, the square roots in `ℝ`. -/
noncomputable def cosineSimilarity (a b : List ℚ) : ℝ :=
  if a.length ≠ b.length then 0
  else
    let dotProduct : ℚ := (List.zipWith (fun x y => x * y) a b).sum
    let normA : ℚ := (a.map (fun x => x * x)).sum
    let normB : ℚ := (b.map (fun x => x * x)).sum
    if normA = 0 ∨ normB = 0 then 0
    else (dotProduct : ℝ) / (Real.sqrt (normA : ℝ) * Real.sqrt (normB : ℝ))

/-- Scan loop of `SemanticCache.GetSimilar`: entries without an embedding are
skipped; an entry whose similarity strictly exceeds the running maximum
(initially the threshold) becomes the current best match, with the `query:`
prefix stripped from its key. -/
noncomputable def getSimilarScan (queryEmbedding : List ℚ) :
    List (String × CachedEntry) → Option SemanticCacheResult → ℝ →
      Option SemanticCacheResult
  | [], best, _ => best
  | (key, e) :: rest, best, maxSim =>
    if e.embedding.length = 0 then getSimilarScan queryEmbedding rest best maxSim
    else
      let sim := cosineSimilarity queryEmbedding e.embedding
      if sim > maxSim then
        getSimilarScan queryEmbedding rest
          (some { response := e.response, similarity := sim, cacheKey := key.drop 6 }) sim
      else getSimilarScan queryEmbedding rest best maxSim

/-- Model of `SemanticCache.GetSimilar` (`src/cache/semantic_cache.go`),
parameterized by the embedding computed for the query and by the decoded
cache entries in enumeration order (entries whose fetch or decode fails are
skipped by the source and are simply absent here). -/
noncomputable def GetSimilar (queryEmbedding : List ℚ) (threshold : ℝ)
    (entries : List (String × CachedEntry)) : Option SemanticCacheResult :=
  getSimilarScan queryEmbedding entries none threshold

/-- Specification-side definition (for comparison with `keywordScore`): the
number of occurrences of `kw` as a substring of `s`, counted by starting
position. -/
def countOccurrences (kw s : List Char) : ℕ :=
  ((List.range s.length).filter (fun i => kw.isPrefixOf (s.drop i))).length

/-- Specification-side definition following the spec's words: `0.15 ·`
the total count of keyword occurrences (as substrings of the lowercased
query) over the nine trigger keywords. -/
def specKeywordScore (q : List Char) : ℚ :=
  0.15 * ((complexityKeywords.map (fun kw => countOccurrences kw (goToLower q))).sum : ℚ)

/-- Specification-side definition following the spec's words: the Jaccard
coefficient `|A∩B| / |A∪B|` over the two SETS of lowercased
whitespace-split tokens, `0` if either side has no tokens. -/
def specJaccard (s1 s2 : String) : ℚ :=
  let w1 := (fields (goToLower s1.toList)).dedup
  let w2 := (fields (goToLower s2.toList)).dedup
  if w1.length = 0 ∨ w2.length = 0 then 0
  else
    let inter := (w1.filter (fun w => w2.contains w)).length
    let union := w1.length + w2.length - inter
    (inter : ℚ) / (union : ℚ)

/-- Specification-side definition following the spec's words: score of entry
`i` under voting aggregation, `weight_i + Σ_{j≠i} Jaccard(r_i, r_j) ·
weight_j`. -/
def specVotingScore (results : List inferenceResult) (i : ℕ) : ℚ :=
  (results.getD i default).weight +
    ((results.enum.filter (fun p => p.1 ≠ i)).map
      (fun p => specJaccard (results.getD i default).response p.2.response * p.2.weight)).sum

/-- Concrete singleton result list used to instantiate the voting theorem. -/
def singletonHello : List inferenceResult :=
  [{ modelName := "m", response := "hello", weight := 1, err := none }]

/-- Concrete pair of valid results on which the code's asymmetric,
multiplicity-sensitive similarity disagrees with the set-Jaccard coefficient:
`"b a"` with weight 1 and `"a a"` with weight 2. -/
def votingCounterexampleResults : List inferenceResult :=
  [{ modelName := "m1", response := "b a", weight := 1, err := none },
   { modelName := "m2", response := "a a", weight := 2, err := none }]

/-- Concrete query whose complexity score exceeds 1: all nine trigger
keywords, twelve distinct words, 1003 bytes, 930 punctuation characters. -/
def bigComplexQuery : List Char :=
  ("explain analyze compare evaluate why how does what if reasoning detailed ").toList
    ++ List.replicate 930 (Char.ofNat 33)

/-- Claim C1.  The routing decision applies the rules in order with the first
match winning: complexity strictly above the threshold routes to the LLM with
the high-complexity reason and confidence 0.90; otherwise a token count
strictly above 100 routes to the LLM; otherwise a present context routes to
the LLM; otherwise the SLM is chosen with confidence 0.95.  Complexity equal
to the threshold and token count equal to 100 do not by themselves trigger
the LLM path. -/
theorem Decide_first_match_wins (threshold : ℚ) (m : QueryMetrics) :
    (m.complexity > threshold →
      HybridRoutingStrategy.Decide threshold m =
        { useLLM := true, reason := "High complexity query requires LLM reasoning",
          confidence := 0.9, complexityScore := m.complexity }) ∧
    (m.complexity ≤ threshold → m.tokenCount > 100 →
      (HybridRoutingStrategy.Decide threshold m).useLLM = true) ∧
    (m.complexity ≤ threshold → m.tokenCount ≤ 100 → m.hasContext = true →
      (HybridRoutingStrategy.Decide threshold m).useLLM = true) ∧
    (m.complexity ≤ threshold → m.tokenCount ≤ 100 → m.hasContext = false →
      (HybridRoutingStrategy.Decide threshold m).useLLM = false ∧
        (HybridRoutingStrategy.Decide threshold m).confidence = 0.95) := by
  refine ⟨fun h1 => ?_, fun h1 h2 => ?_, fun h1 h2 h3 => ?_, fun h1 h2 h3 => ?_⟩
  · simp [HybridRoutingStrategy.Decide, h1]
  · simp [HybridRoutingStrategy.Decide, not_lt.mpr h1, h2]
  · simp [HybridRoutingStrategy.Decide, not_lt.mpr h1, not_lt.mpr h2, h3]
  · simp [HybridRoutingStrategy.Decide, not_lt.mpr h1, not_lt.mpr h2, h3]

/-- Witness for C1: the strict boundary case `complexity = threshold`,
`tokenCount = 100`, no context, is routed to the SLM with confidence 0.95. -/
theorem Decide_first_match_wins_witness :
    (HybridRoutingStrategy.Decide 0.65
      { tokenCount := 100, complexity := 0.65, hasContext := false,
        queryLength := 400 }).useLLM = false ∧
    (HybridRoutingStrategy.Decide 0.65
      { tokenCount := 100, complexity := 0.65, hasContext := false,
        queryLength := 400 }).confidence = 0.95 :=
  (Decide_first_match_wins 0.65
    { tokenCount := 100, complexity := 0.65, hasContext := false,
      queryLength := 400 }).2.2.2 le_rfl (by norm_num) rfl

/-- Folding `+ c` over the elements satisfying `p` computes `c` times the
number of such elements. -/
theorem foldl_if_add {α : Type} (p : α → Prop) [DecidablePred p] (c : ℚ) :
    ∀ (l : List α) (a : ℚ),
      l.foldl (fun acc x => if p x then acc + c else acc) a
        = a + c * ((l.filter (fun x => decide (p x))).length : ℚ)
  | [], a => by simp
  | x :: l, a => by
    by_cases h : p x <;>
      simp only [List.foldl_cons, h, if_true, if_false, foldl_if_add p c l,
        List.filter_cons, decide_eq_true_eq, List.length_cons] <;>
      push_cast <;> ring

/-- Claim C5 (amended).  The keyword component of the complexity score is
`0.15` times the number of DISTINCT trigger keywords that occur at least once
as a substring of the lowercased query; a keyword occurring several times
still contributes `0.15` only once (`strings.Contains` is a pure membership
test). -/
theorem keywordScore_counts_distinct_keywords (q : List Char) :
    keywordScore q
      = 0.15 * ((complexityKeywords.filter
          (fun kw => decide (kw <:+: goToLower q))).length : ℚ) := by
  rw [keywordScore, foldl_if_add]; ring

/-- Counterexample to claim C5 as stated: in the query `"why why"` the
keyword `"why"` occurs twice, so the spec formula (`0.15` per occurrence)
gives `0.30`, but the code computes `0.15`. -/
theorem keywordScore_counterexample_why_why :
    keywordScore ("why why").toList = 0.15 ∧
    specKeywordScore ("why why").toList = 0.30 ∧
    (0.15 : ℚ) ≠ 0.30 := by
  refine ⟨?_, ?_, by norm_num⟩
  · have h : (complexityKeywords.filter
        (fun kw => decide (kw <:+: goToLower ("why why").toList))).length = 1 := by decide
    rw [keywordScore_counts_distinct_keywords, h]; norm_num
  · have h : ((complexityKeywords.map
        (fun kw => countOccurrences kw (goToLower ("why why").toList))).sum) = 2 := by decide
    rw [specKeywordScore, h]; norm_num

/-- Value capped from above: if `x` is non-negative the capped value stays in
`[0, cap]`. -/
theorem capped_mem (x cap : ℚ) (hx : 0 ≤ x) (hc : 0 ≤ cap) :
    0 ≤ (if x > cap then cap else x) ∧ (if x > cap then cap else x) ≤ cap := by
  split_ifs with h
  · exact ⟨hc, le_rfl⟩
  · exact ⟨hx, not_lt.mp h⟩

/-- Claim C6 (amended).  On a query with at least one whitespace-separated
word, `calculateComplexity` is a rational number in `[0, 207/200]` (every
component is bounded: length ≤ 1, diversity ≤ 1, keyword ≤ 1.35,
punctuation ≤ 0.3, so the weighted sum is at most `1.035`, which is
attainable — the score is NOT bounded by 1).  On a query with no words the
diversity ratio is the float division `0/0`, so the result is NaN (`none`),
not 0. -/
theorem calculateComplexity_range (q : List Char) :
    (fields (goToLower q) = [] → calculateComplexity q = none) ∧
    (fields (goToLower q) ≠ [] →
      ∃ x, calculateComplexity q = some x ∧ 0 ≤ x ∧ x ≤ 207 / 200) := by
  constructor
  · intro h
    simp [calculateComplexity, gdiv, gadd, gmul, h]
  · intro h
    have hn : 0 < (fields (goToLower q)).length := List.length_pos.mpr h
    have hnQ : ((fields (goToLower q)).length : ℚ) ≠ 0 := by
      exact_mod_cast Nat.pos_iff_ne_zero.mp hn
    have hnQ0 : (0 : ℚ) < ((fields (goToLower q)).length : ℚ) := by exact_mod_cast hn
    simp only [calculateComplexity, gdiv, gadd, gmul, if_neg hnQ]
    refine ⟨_, rfl, ?_, ?_⟩ <;>
    · have hls := capped_mem ((utf8Length q : ℚ) / 1000) 1 (by positivity) (by norm_num)
      have hps := capped_mem (((q.filter goIsPunct).length : ℚ) / 100) 0.3
        (by positivity) (by norm_num)
      have hdl : ((fields (goToLower q)).dedup.length : ℚ)
          ≤ ((fields (goToLower q)).length : ℚ) := by
        exact_mod_cast (List.dedup_sublist (fields (goToLower q))).length_le
      have hdiv0 : (0 : ℚ) ≤ ((fields (goToLower q)).dedup.length : ℚ)
          / ((fields (goToLower q)).length : ℚ) := by positivity
      have hdiv1 : ((fields (goToLower q)).dedup.length : ℚ)
          / ((fields (goToLower q)).length : ℚ) ≤ 1 :=
        (div_le_one hnQ0).mpr hdl
      have hkw : keywordScore q = 0.15 * ((complexityKeywords.filter
          (fun kw => decide (kw <:+: goToLower q))).length : ℚ) := by
        rw [keywordScore, foldl_if_add]; ring
      have hkc : ((complexityKeywords.filter
          (fun kw => decide (kw <:+: goToLower q))).length : ℚ) ≤ 9 := by
        exact_mod_cast (List.length_filter_le _ complexityKeywords).trans (by decide)
      have hkc0 : (0 : ℚ) ≤ ((complexityKeywords.filter
          (fun kw => decide (kw <:+: goToLower q))).length : ℚ) := by positivity
      rw [hkw]
      linarith [hls.1, hls.2, hps.1, hps.2]

/-- Witness for C6: the one-word query `"hi"` has a finite complexity in
range. -/
theorem calculateComplexity_range_witness :
    ∃ x, calculateComplexity ("hi").toList = some x ∧ 0 ≤ x ∧ x ≤ 207 / 200 :=
  (calculateComplexity_range ("hi").toList).2 (by decide)

set_option maxRecDepth 40000 in
/-- Counterexample to claim C6 as stated: the empty query has NaN complexity
(the code divides `0.0/0.0`), and `bigComplexQuery` has complexity
`1.035 > 1`, so the score is neither always defined nor bounded by 1. -/
theorem calculateComplexity_counterexample :
    calculateComplexity ([] : List Char) = none ∧
    calculateComplexity bigComplexQuery = some (207 / 200) ∧ (1 : ℚ) < 207 / 200 := by
  refine ⟨by decide, ?_, by norm_num⟩
  have h1 : utf8Length bigComplexQuery = 1003 := by decide
  have h2 : ((fields (goToLower bigComplexQuery)).length : ℚ) = 12 := by
    norm_num [show (fields (goToLower bigComplexQuery)).length = 12 from by decide]
  have h3 : ((fields (goToLower bigComplexQuery)).dedup.length : ℚ) = 12 := by
    norm_num [show (fields (goToLower bigComplexQuery)).dedup.length = 12 from by decide]
  have h4 : ((bigComplexQuery.filter goIsPunct).length : ℚ) = 930 := by
    norm_num [show (bigComplexQuery.filter goIsPunct).length = 930 from by decide]
  have h5 : keywordScore bigComplexQuery = 0.15 * 9 := by
    rw [keywordScore, foldl_if_add]
    norm_num [show (complexityKeywords.filter
      (fun kw => decide (kw <:+: goToLower bigComplexQuery))).length = 9 from by decide]
  simp only [calculateComplexity, gdiv, gadd, gmul, h1, h2, h3, h4, h5]
  norm_num

/-- Claim C10.  When every result carries no error but an empty response,
aggregation still fails with the bare `AllModelsFailed` message: error-free
empty responses are excluded from aggregation yet contribute nothing to the
concatenated error detail, so the message carries no per-model information. -/
theorem aggregateResults_all_empty (aggregationFn : String)
    (rs : List inferenceResult) (h : ∀ r ∈ rs, r.err = none ∧ r.response = "") :
    aggregateResults aggregationFn rs
      = Except.error "all models failed to generate responses" := by
  have hv : rs.filter (fun r => r.err.isNone && !(r.response == "")) = [] := by
    rw [List.filter_eq_nil_iff]
    intro r hr
    simp [(h r hr).2]
  have he : rs.filterMap (fun r => r.err.map (fun e => r.modelName ++ ": " ++ e)) = [] := by
    rw [List.filterMap_eq_nil_iff]
    intro r hr
    simp [(h r hr).1]
  simp [aggregateResults, hv, he]

/-- Witness for C10: two error-free empty results yield the bare
`AllModelsFailed` error. -/
theorem aggregateResults_all_empty_witness :
    aggregateResults "weighted"
      [{ modelName := "m1", response := "", weight := 1.5, err := none },
       { modelName := "m2", response := "", weight := 2, err := none }]
      = Except.error "all models failed to generate responses" :=
  aggregateResults_all_empty "weighted" _ (by decide)

/-- Membership in a descending insertion. -/
theorem mem_insertDescBy {α : Type} (key : α → ℚ) (a x : α) :
    ∀ l, x ∈ insertDescBy key a l ↔ x = a ∨ x ∈ l
  | [] => by simp [insertDescBy]
  | b :: bs => by
    simp only [insertDescBy]
    split_ifs with h
    · simp [List.mem_cons]
    · simp only [List.mem_cons, mem_insertDescBy key a x bs]
      tauto

/-- Descending-insertion sort preserves membership (it permutes its input, as
`sort.Slice` does). -/
theorem mem_sortDescBy {α : Type} (key : α → ℚ) (x : α) :
    ∀ l, x ∈ sortDescBy key l ↔ x ∈ l
  | [] => by simp [sortDescBy]
  | a :: as => by
    simp [sortDescBy, mem_insertDescBy, mem_sortDescBy key x as]

/-- Head of a descending sort: the sorted list is non-empty and starts with an
element of the input whose key is maximal. -/
theorem sortDescBy_max {α : Type} (key : α → ℚ) :
    ∀ l, l ≠ [] → ∃ h0 t, sortDescBy key l = h0 :: t ∧ h0 ∈ l ∧
      ∀ x ∈ l, key x ≤ key h0
  | [], h => absurd rfl h
  | a :: as, _ => by
    cases as with
    | nil => exact ⟨a, [], by simp [sortDescBy, insertDescBy], by simp, by simp⟩
    | cons b bs =>
      obtain ⟨h0, t, hst, hmem, hmax⟩ := sortDescBy_max key (b :: bs) (by simp)
      by_cases hc : key a > key h0
      · refine ⟨a, h0 :: t, ?_, by simp, ?_⟩
        · simp only [sortDescBy] at hst ⊢
          rw [hst, insertDescBy, if_pos hc]
        · intro x hx
          rcases List.mem_cons.mp hx with hxa | hxm
          · exact le_of_eq (congrArg key hxa)
          · exact (hmax x hxm).trans (le_of_lt hc)
      · refine ⟨h0, insertDescBy key a t, ?_, List.mem_cons_of_mem a hmem, ?_⟩
        · simp only [sortDescBy] at hst ⊢
          rw [hst, insertDescBy, if_neg hc]
        · intro x hx
          rcases List.mem_cons.mp hx with hxa | hxm
          · exact hxa ▸ not_lt.mp hc
          · exact hmax x hxm

/-- Weighted aggregation returns the response of some input element. -/
theorem aggregateWeighted_mem (l : List inferenceResult) (h : l ≠ []) :
    ∃ r ∈ l, aggregateWeighted l = r.response := by
  obtain ⟨h0, t, hst, hmem, _⟩ := sortDescBy_max (fun r => r.weight) l h
  exact ⟨h0, hmem, by simp [aggregateWeighted, hst]⟩

/-- Longest aggregation returns the response of some input element. -/
theorem aggregateLongest_mem (l : List inferenceResult) (h : l ≠ []) :
    ∃ r ∈ l, aggregateLongest l = r.response := by
  obtain ⟨h0, t, hst, hmem, _⟩ :=
    sortDescBy_max (fun r => ((r.response.utf8ByteSize : ℚ))) l h
  exact ⟨h0, hmem, by simp [aggregateLongest, hst]⟩

/-- Voting aggregation returns the response of some input element. -/
theorem aggregateVoting_mem (l : List inferenceResult) (h : l ≠ []) :
    ∃ r ∈ l, aggregateVoting l = r.response := by
  obtain ⟨x, xs, rfl⟩ := List.exists_cons_of_ne_nil h
  by_cases h1 : (x :: xs).length = 1
  · exact ⟨x, List.mem_cons_self x xs, by simp [aggregateVoting, h1]⟩
  · have hsne : (x :: xs).enum.map
        (fun p => (p.2, votingScore (x :: xs) p.1 p.2)) ≠ [] := by
      simp
    obtain ⟨p0, t, hst, hpmem, _⟩ := sortDescBy_max (fun s => s.2) _ hsne
    obtain ⟨q, hq, hpq⟩ := List.mem_map.mp hpmem
    have hq2 : q.2 ∈ x :: xs := by
      have := List.mem_enum_iff_getElem?.mp hq
      exact List.getElem?_mem this
    refine ⟨q.2, hq2, ?_⟩
    simp only [aggregateVoting, if_neg h1, hst, List.headD_cons]
    rw [← hpq]

/-- Claim C2.  Whenever at least one inference result has no error and a
non-empty response, `aggregateResults` succeeds under every aggregation
setting (weighted, longest, voting, or anything unrecognized), and the value
returned is exactly the response of one element of the error-free non-empty
subset — never a concatenation or synthesized text. -/
theorem aggregateResults_returns_member (aggregationFn : String)
    (rs : List inferenceResult) (r0 : inferenceResult) (h0 : r0 ∈ rs)
    (he : r0.err = none) (hne : r0.response ≠ "") :
    ∃ s, aggregateResults aggregationFn rs = Except.ok s ∧
      ∃ r ∈ rs, r.err = none ∧ r.response ≠ "" ∧ s = r.response := by
  have hr0v : r0 ∈ rs.filter (fun r => r.err.isNone && !(r.response == "")) :=
    List.mem_filter.mpr ⟨h0, by simp [he, hne]⟩
  have hvne : rs.filter (fun r => r.err.isNone && !(r.response == "")) ≠ [] :=
    List.ne_nil_of_mem hr0v
  have hlen : (rs.filter (fun r => r.err.isNone && !(r.response == ""))).length ≠ 0 := by
    simpa [List.length_eq_zero] using hvne
  have hout : ∀ r ∈ rs.filter (fun r => r.err.isNone && !(r.response == "")),
      r ∈ rs ∧ r.err = none ∧ r.response ≠ "" := by
    intro r hr
    obtain ⟨hmem, hp⟩ := List.mem_filter.mp hr
    refine ⟨hmem, ?_, ?_⟩
    · rcases Bool.and_eq_true_iff.mp hp with ⟨h1, _⟩
      exact Option.isNone_iff_eq_none.mp h1
    · rcases Bool.and_eq_true_iff.mp hp with ⟨_, h2⟩
      simpa using h2
  simp only [aggregateResults, if_neg hlen]
  split_ifs <;>
  · first
    | (obtain ⟨r, hr, hagg⟩ := aggregateWeighted_mem _ hvne
       exact ⟨_, rfl, r, (hout r hr).1, (hout r hr).2.1, (hout r hr).2.2, hagg⟩)
    | (obtain ⟨r, hr, hagg⟩ := aggregateLongest_mem _ hvne
       exact ⟨_, rfl, r, (hout r hr).1, (hout r hr).2.1, (hout r hr).2.2, hagg⟩)
    | (obtain ⟨r, hr, hagg⟩ := aggregateVoting_mem _ hvne
       exact ⟨_, rfl, r, (hout r hr).1, (hout r hr).2.1, (hout r hr).2.2, hagg⟩)

/-- Witness for C2: with one errored result and one good one, under the
`voting` setting, the good result's response is returned. -/
theorem aggregateResults_returns_member_witness :
    ∃ s, aggregateResults "voting"
        [{ modelName := "m1", response := "", weight := 2, err := some "boom" },
         { modelName := "m2", response := "fine", weight := 1, err := none }]
      = Except.ok s ∧
      ∃ r ∈ ([{ modelName := "m1", response := "", weight := 2, err := some "boom" },
              { modelName := "m2", response := "fine", weight := 1, err := none }] :
              List inferenceResult),
        r.err = none ∧ r.response ≠ "" ∧ s = r.response :=
  aggregateResults_returns_member "voting" _
    { modelName := "m2", response := "fine", weight := 1, err := none }
    (by decide) rfl (by decide)

/-- Folding `+ f x` over the elements NOT satisfying `p` computes the sum of
`f` over the filtered complement. -/
theorem foldl_if_skip_sum {α : Type} (p : α → Prop) [DecidablePred p] (f : α → ℚ) :
    ∀ (l : List α) (a : ℚ),
      l.foldl (fun acc x => if p x then acc else acc + f x) a
        = a + ((l.filter (fun x => !decide (p x))).map f).sum
  | [], a => by simp
  | x :: l, a => by
    by_cases h : p x <;>
      simp [List.foldl_cons, h, foldl_if_skip_sum p f l, List.filter_cons] <;>
      ring

/-- Claim C7 (amended).  Under voting aggregation each result `r_i` is scored
as `weight_i + Σ_{j≠i} similarity(r_i, r_j) · weight_j` and a response whose
score is maximal is returned — but `similarity` is `calculateSimilarity`, the
code's asymmetric overlap measure (tokens of the second argument, counted
with multiplicity, that occur among the first argument's tokens, divided by
`len₁ + len₂ − common`; `0` if either side has no tokens), which coincides
with the set-Jaccard coefficient only on duplicate-free token lists. -/
theorem aggregateVoting_picks_max_score (rs : List inferenceResult) (h : rs ≠ []) :
    (∀ i r1, votingScore rs i r1
        = r1.weight + ((rs.enum.filter (fun p => decide (p.1 ≠ i))).map
            (fun p => calculateSimilarity r1.response p.2.response * p.2.weight)).sum) ∧
    ∃ i, ∃ hi : i < rs.length, aggregateVoting rs = rs[i].response ∧
      ∀ j (hj : j < rs.length), votingScore rs j rs[j] ≤ votingScore rs i rs[i] := by
  constructor
  · intro i r1
    rw [votingScore, foldl_if_skip_sum]
    have : (fun p : ℕ × inferenceResult => !decide (p.1 = i))
        = (fun p : ℕ × inferenceResult => decide (p.1 ≠ i)) := by
      funext p
      simp
    rw [this]
  · by_cases h1 : rs.length = 1
    · obtain ⟨x, xs, rfl⟩ := List.exists_cons_of_ne_nil h
      have hxs : xs = [] := by simpa using h1
      subst hxs
      refine ⟨0, by simp, by simp [aggregateVoting], ?_⟩
      intro j hj
      have hj0 : j = 0 := by simpa using hj
      subst hj0
      exact le_rfl
    · have hsne : rs.enum.map (fun p => (p.2, votingScore rs p.1 p.2)) ≠ [] := by
        simp [h]
      obtain ⟨p0, t, hst, hpmem, hmax⟩ := sortDescBy_max (fun s => s.2) _ hsne
      obtain ⟨q, hq, hpq⟩ := List.mem_map.mp hpmem
      obtain ⟨hilt, hget⟩ := List.getElem?_eq_some.mp (List.mem_enum_iff_getElem?.mp hq)
      refine ⟨q.1, hilt, ?_, ?_⟩
      · simp only [aggregateVoting, if_neg h1, hst, List.headD_cons]
        rw [← hpq, hget]
      · intro j hj
        have hjmem : (j, rs[j]) ∈ rs.enum :=
          List.mem_enum_iff_getElem?.mpr (by simp [List.getElem?_eq_getElem hj])
        have hsc : ((rs[j], votingScore rs j rs[j]) : inferenceResult × ℚ)
            ∈ rs.enum.map (fun p => (p.2, votingScore rs p.1 p.2)) :=
          List.mem_map.mpr ⟨(j, rs[j]), hjmem, rfl⟩
        have hle := hmax _ hsc
        rw [← hpq] at hle
        rw [hget]
        exact hle

/-- Witness for C7: on a singleton result list the returned response is the
(unique) maximal-score response. -/
theorem aggregateVoting_picks_max_score_witness :
    ∃ i, ∃ hi : i < singletonHello.length,
      aggregateVoting singletonHello = singletonHello[i].response ∧
      ∀ j (hj : j < singletonHello.length),
        votingScore singletonHello j singletonHello[j]
          ≤ votingScore singletonHello i singletonHello[i] :=
  (aggregateVoting_picks_max_score singletonHello (by decide)).2

/-- Concrete value of the code's similarity: `"b a"` against `"a a"` scores 1
(both duplicate tokens of `"a a"` hit the token set of `"b a"`). -/
theorem calculateSimilarity_ba_aa : calculateSimilarity "b a" "a a" = 1 := by
  have w1 : fields (goToLower ("b a").toList) = [['b'], ['a']] := by decide
  have w2 : fields (goToLower ("a a").toList) = [['a'], ['a']] := by decide
  have hc : (([['a'], ['a']] : List (List Char)).filter
      (fun w => ([['b'], ['a']] : List (List Char)).contains w)).length = 2 := by decide
  simp only [calculateSimilarity, w1, w2, hc]
  norm_num

/-- Concrete value of the code's similarity in the other direction: `"a a"`
against `"b a"` scores 1/3 — the measure is not symmetric. -/
theorem calculateSimilarity_aa_ba : calculateSimilarity "a a" "b a" = 1 / 3 := by
  have w1 : fields (goToLower ("a a").toList) = [['a'], ['a']] := by decide
  have w2 : fields (goToLower ("b a").toList) = [['b'], ['a']] := by decide
  have hc : (([['b'], ['a']] : List (List Char)).filter
      (fun w => ([['a'], ['a']] : List (List Char)).contains w)).length = 1 := by decide
  simp only [calculateSimilarity, w1, w2, hc]
  norm_num


/-- Counterexample to claim C7 as stated: on the results `("b a", weight 1)`
and `("a a", weight 2)` the code returns `"b a"`, although under the spec's
set-Jaccard scoring the strictly highest score belongs to `"a a"` (spec
scores: 2 for index 0, 5/2 for index 1), whose response differs.  The code's
scores are 3 and 7/3 because `calculateSimilarity` counts the duplicated
token `"a"` twice. -/
theorem aggregateVoting_counterexample :
    aggregateVoting votingCounterexampleResults = "b a" ∧
    specVotingScore votingCounterexampleResults 0
      < specVotingScore votingCounterexampleResults 1 ∧
    (votingCounterexampleResults.getD 1 default).response ≠ "b a" := by
  have he : votingCounterexampleResults.enum
      = [(0, { modelName := "m1", response := "b a", weight := 1, err := none }),
         (1, { modelName := "m2", response := "a a", weight := 2, err := none })] := by
    decide
  refine ⟨?_, ?_, by decide⟩
  · have hv0 : votingScore votingCounterexampleResults 0
        { modelName := "m1", response := "b a", weight := 1, err := none } = 3 := by
      simp only [votingScore, he, List.foldl_cons, List.foldl_nil]
      norm_num [calculateSimilarity_ba_aa]
    have hv1 : votingScore votingCounterexampleResults 1
        { modelName := "m2", response := "a a", weight := 2, err := none } = 7 / 3 := by
      simp only [votingScore, he, List.foldl_cons, List.foldl_nil]
      norm_num [calculateSimilarity_aa_ba]
    simp only [aggregateVoting, he, List.map_cons, List.map_nil]
    rw [if_neg (by decide)]
    simp only [hv0, hv1, sortDescBy, insertDescBy]
    rw [if_pos (show (3 : ℚ) > 7 / 3 by norm_num)]
    simp
  · have hj0 : specJaccard "b a" "a a" = 1 / 2 := by
      have d1 : (fields (goToLower ("b a").toList)).dedup = [['b'], ['a']] := by decide
      have d2 : (fields (goToLower ("a a").toList)).dedup = [['a']] := by decide
      have hi : (([['b'], ['a']] : List (List Char)).filter
          (fun w => ([['a']] : List (List Char)).contains w)).length = 1 := by decide
      simp only [specJaccard, d1, d2, hi]
      norm_num
    have hj1 : specJaccard "a a" "b a" = 1 / 2 := by
      have d1 : (fields (goToLower ("a a").toList)).dedup = [['a']] := by decide
      have d2 : (fields (goToLower ("b a").toList)).dedup = [['b'], ['a']] := by decide
      have hi : (([['a']] : List (List Char)).filter
          (fun w => ([['b'], ['a']] : List (List Char)).contains w)).length = 1 := by decide
      simp only [specJaccard, d1, d2, hi]
      norm_num
    have g0 : votingCounterexampleResults[0]?.getD default
        = { modelName := "m1", response := "b a", weight := 1, err := none } := by decide
    have g1 : votingCounterexampleResults[1]?.getD default
        = { modelName := "m2", response := "a a", weight := 2, err := none } := by decide
    simp only [specVotingScore, he, List.filter_cons, List.filter_nil]
    norm_num [g0, g1, hj0, hj1]

/-- In-range `getD` does not depend on the default value. -/
theorem getD_default_irrel {α : Type} (l : List α) (i : ℕ) (d1 d2 : α)
    (h : i < l.length) : l.getD i d1 = l.getD i d2 := by
  rw [List.getD_eq_getElem l d1 h, List.getD_eq_getElem l d2 h]

/-- Chain characterization of the refinement loop: there is a list `rs` of
successive successful refinements, each produced by the corresponding adapter
from the refinement prompt carrying the latest successful response; the chain
either exhausts the adapters or stops at the first failing adapter; and the
loop's value is the last successful response. -/
theorem seriesLoop_chain (query : String) :
    ∀ (bs : List Adapter) (r0 : String),
      ∃ rs : List String, rs.length ≤ bs.length ∧
        (∀ i, i < rs.length →
          (bs.getD i (fun _ => Except.error ""))
              (refinementPrompt query ((r0 :: rs).getD i r0))
            = Except.ok (rs.getD i r0)) ∧
        (rs.length = bs.length ∨
          ∃ e, (bs.getD rs.length (fun _ => Except.error ""))
              (refinementPrompt query (rs.getLastD r0)) = Except.error e) ∧
        seriesLoop query bs r0 = rs.getLastD r0
  | [], r0 => ⟨[], by simp, by simp, Or.inl rfl, by simp [seriesLoop]⟩
  | b :: bs, r0 => by
    cases hb : b (refinementPrompt query r0) with
    | error e =>
      exact ⟨[], by simp, by simp, Or.inr ⟨e, by simpa using hb⟩,
        by simp [seriesLoop, hb]⟩
    | ok r1 =>
      obtain ⟨rs', h1, h2, h3, h4⟩ := seriesLoop_chain query bs r1
      refine ⟨r1 :: rs', by simpa using h1, ?_, ?_, ?_⟩
      · intro i hi
        cases i with
        | zero => simpa using hb
        | succ i' =>
          have hi' : i' < rs'.length := by simpa using hi
          have := h2 i' hi'
          simp only [List.getD_cons_succ]
          calc (bs.getD i' (fun _ => Except.error ""))
                (refinementPrompt query ((r1 :: rs').getD i' r0))
              = (bs.getD i' (fun _ => Except.error ""))
                (refinementPrompt query ((r1 :: rs').getD i' r1)) := by
                rw [getD_default_irrel _ _ r0 r1 (by simp; omega)]
            _ = Except.ok (rs'.getD i' r1) := this
            _ = Except.ok (rs'.getD i' r0) := by
                rw [getD_default_irrel _ _ r1 r0 hi']
      · rcases h3 with h3 | ⟨e, he⟩
        · exact Or.inl (by simpa using h3)
        · refine Or.inr ⟨e, ?_⟩
          rw [List.length_cons, List.getD_cons_succ, List.getLastD_cons]
          exact he
      · simp only [seriesLoop, hb, List.getLastD_cons]
        exact h4

/-- Claim C9.  Under the series strategy, adapter 0 receives the built
prompt and its failure is fatal with the `first model failed` error; each
later adapter receives the refinement prompt built from the latest
successful response; and a failure at any later stage makes the call return
the last successful response with no error. -/
theorem inferSeries_spec (a : Adapter) (rest : List Adapter) (query context : String) :
    (∀ e, a (buildPrompt query context) = Except.error e →
      inferSeries a rest query context
        = Except.error ("first model failed: " ++ e)) ∧
    (∀ r0, a (buildPrompt query context) = Except.ok r0 →
      ∃ rs : List String, rs.length ≤ rest.length ∧
        (∀ i, i < rs.length →
          (rest.getD i (fun _ => Except.error ""))
              (refinementPrompt query ((r0 :: rs).getD i r0))
            = Except.ok (rs.getD i r0)) ∧
        (rs.length = rest.length ∨
          ∃ e, (rest.getD rs.length (fun _ => Except.error ""))
              (refinementPrompt query (rs.getLastD r0)) = Except.error e) ∧
        inferSeries a rest query context = Except.ok (rs.getLastD r0)) := by
  constructor
  · intro e he
    simp [inferSeries, he]
  · intro r0 hr0
    obtain ⟨rs, h1, h2, h3, h4⟩ := seriesLoop_chain query rest r0
    exact ⟨rs, h1, h2, h3, by simp [inferSeries, hr0, h4]⟩

/-- Witness for C9: a failing first adapter is fatal with the wrapped
message. -/
theorem inferSeries_spec_witness :
    inferSeries (fun _ => Except.error "boom") [] "q" ""
      = Except.error ("first model failed: " ++ "boom") :=
  (inferSeries_spec (fun _ => Except.error "boom") [] "q" "").1 "boom" rfl

/-- Hex digits of distinct values below 16 are distinct. -/
theorem hexDigit_inj : ∀ m, m < 16 → ∀ n, n < 16 → hexDigit m = hexDigit n → m = n := by
  decide

/-- Every byte emitted by `le4` is below 256. -/
theorem le4_lt (n : ℕ) : ∀ b ∈ le4 n, b < 256 := by
  simp only [le4, List.mem_cons, List.not_mem_nil, or_false]
  rintro b (rfl | rfl | rfl | rfl) <;> exact Nat.mod_lt _ (by norm_num)

/-- Every byte of an MD5 digest is below 256. -/
theorem md5Bytes_lt (msg : List ℕ) : ∀ b ∈ md5Bytes msg, b < 256 := by
  intro b hb
  simp only [md5Bytes, List.mem_append] at hb
  rcases hb with ((hb | hb) | hb) | hb <;> exact le4_lt _ b hb

/-- Hexadecimal rendering is injective on byte sequences. -/
theorem hexBytes_inj : ∀ (b1 b2 : List ℕ), (∀ x ∈ b1, x < 256) → (∀ x ∈ b2, x < 256) →
    hexBytes b1 = hexBytes b2 → b1 = b2
  | [], [], _, _, _ => rfl
  | [], x :: xs, _, _, h => by simp [hexBytes] at h
  | x :: xs, [], _, _, h => by simp [hexBytes] at h
  | x :: xs, y :: ys, h1, h2, h => by
    have hx : x < 256 := h1 x (by simp)
    have hy : y < 256 := h2 y (by simp)
    simp only [hexBytes, List.cons.injEq] at h
    obtain ⟨ha, hb, hc⟩ := h
    have e1 : x / 16 % 16 = y / 16 % 16 :=
      hexDigit_inj _ (Nat.mod_lt _ (by norm_num)) _ (Nat.mod_lt _ (by norm_num)) ha
    have e2 : x % 16 = y % 16 :=
      hexDigit_inj _ (Nat.mod_lt _ (by norm_num)) _ (Nat.mod_lt _ (by norm_num)) hb
    have hxy : x = y := by
      have d1 : x / 16 < 16 := Nat.div_lt_of_lt_mul (by omega)
      have d2 : y / 16 < 16 := Nat.div_lt_of_lt_mul (by omega)
      rw [Nat.mod_eq_of_lt d1, Nat.mod_eq_of_lt d2] at e1
      omega
    have : xs = ys :=
      hexBytes_inj xs ys (fun z hz => h1 z (by simp [hz])) (fun z hz => h2 z (by simp [hz])) hc
    rw [hxy, this]

/-- Claim C3 (amended).  `GenerateCacheKey` is a pure function of
`query + "|" + context`: two keys coincide exactly when the MD5 digests of
the joined strings coincide; in particular equal query and context always
give equal keys (independently of `max_tokens`, `temperature` and
`metadata`).  The spec's converse — key equality forcing query and context
equality — fails, because distinct pairs can join to the same string. -/
theorem GenerateCacheKey_eq_iff (r1 r2 : InferenceRequest) :
    (GenerateCacheKey r1 = GenerateCacheKey r2
      ↔ md5Bytes (utf8Bytes (r1.query ++ "|" ++ r1.context).toList)
          = md5Bytes (utf8Bytes (r2.query ++ "|" ++ r2.context).toList)) ∧
    (r1.query = r2.query → r1.context = r2.context →
      GenerateCacheKey r1 = GenerateCacheKey r2) := by
  constructor
  · constructor
    · intro h
      have hdata : ("inference:" ++ String.mk (hexBytes
            (md5Bytes (utf8Bytes (r1.query ++ "|" ++ r1.context).toList)))).data
          = ("inference:" ++ String.mk (hexBytes
            (md5Bytes (utf8Bytes (r2.query ++ "|" ++ r2.context).toList)))).data :=
        congrArg String.data h
      simp only [String.data_append] at hdata
      have hhex := List.append_cancel_left hdata
      exact hexBytes_inj _ _ (md5Bytes_lt _) (md5Bytes_lt _) hhex
    · intro h
      simp only [GenerateCacheKey, h]
  · intro hq hc
    simp only [GenerateCacheKey, hq, hc]

/-- Witness for C3: two requests with equal query and context but different
generation parameters and metadata share the cache key. -/
theorem GenerateCacheKey_eq_iff_witness :
    GenerateCacheKey
        { query := "q", context := "c", maxTokens := 1,
          temperature := 0.5, metadata := [("k", "v")] }
      = GenerateCacheKey
        { query := "q", context := "c", maxTokens := 99,
          temperature := 2, metadata := [] } :=
  (GenerateCacheKey_eq_iff _ _).2 rfl rfl

/-- Counterexample to claim C3 as stated: the requests `("a", "b|c")` and
`("a|b", "c")` differ in query and context, yet both join to `"a|b|c"` and
therefore share the same cache key — key equality does not force query and
context equality. -/
theorem GenerateCacheKey_counterexample :
    GenerateCacheKey
        { query := "a", context := "b|c", maxTokens := 5,
          temperature := 0, metadata := [] }
      = GenerateCacheKey
        { query := "a|b", context := "c", maxTokens := 5,
          temperature := 0, metadata := [] }
    ∧ ("a" : String) ≠ "a|b" := by
  constructor
  · have : ("a" ++ "|" ++ "b|c" : String) = ("a|b" ++ "|" ++ "c" : String) := by decide
    simp only [GenerateCacheKey, this]
  · decide

/-- Scan steps that never beat the running maximum leave the best match
unchanged. -/
theorem getSimilarScan_stay (qe : List ℚ) :
    ∀ (entries : List (String × CachedEntry)) (best : Option SemanticCacheResult)
      (maxSim : ℝ),
      (∀ p ∈ entries, p.2.embedding ≠ [] →
        cosineSimilarity qe p.2.embedding ≤ maxSim) →
      getSimilarScan qe entries best maxSim = best
  | [], _, _, _ => rfl
  | (key, e) :: rest, best, maxSim, h => by
    by_cases hemb : e.embedding.length = 0
    · simp only [getSimilarScan, if_pos hemb]
      exact getSimilarScan_stay qe rest best maxSim
        (fun p hp => h p (List.mem_cons_of_mem _ hp))
    · have hne : e.embedding ≠ [] := by simpa [← List.length_eq_zero] using hemb
      have hle : cosineSimilarity qe e.embedding ≤ maxSim := h (key, e) (by simp) hne
      simp only [getSimilarScan, if_neg hemb, if_neg (not_lt.mpr hle)]
      exact getSimilarScan_stay qe rest best maxSim
        (fun p hp => h p (List.mem_cons_of_mem _ hp))

/-- Invariant of the similarity scan: starting from a state whose running
maximum is the threshold (no match yet) or the current best's similarity,
any returned match beats the threshold, satisfies any property `Good`
enjoyed by all candidate matches, and its similarity dominates every
embedded entry as well as the incoming best. -/
theorem getSimilarScan_some (qe : List ℚ) (thr : ℝ) (Good : SemanticCacheResult → Prop) :
    ∀ (entries : List (String × CachedEntry)) (best : Option SemanticCacheResult)
      (maxSim : ℝ),
      thr ≤ maxSim →
      (best = none → maxSim = thr) →
      (∀ r0, best = some r0 → maxSim = r0.similarity ∧ thr < r0.similarity ∧ Good r0) →
      (∀ p ∈ entries, p.2.embedding ≠ [] →
        Good { response := p.2.response,
               similarity := cosineSimilarity qe p.2.embedding,
               cacheKey := p.1.drop 6 }) →
      ∀ r, getSimilarScan qe entries best maxSim = some r →
        thr < r.similarity ∧ Good r ∧
        (∀ p ∈ entries, p.2.embedding ≠ [] →
          cosineSimilarity qe p.2.embedding ≤ r.similarity) ∧
        (∀ r0, best = some r0 → r0.similarity ≤ r.similarity)
  | [], best, maxSim, _, _, hsome, _, r, hr => by
    have hb : best = some r := hr
    obtain ⟨h1, h2, h3⟩ := hsome r hb
    refine ⟨h2, h3, by simp, ?_⟩
    intro r0 h0
    have heq : r = r0 := Option.some_injective _ (hb.symm.trans h0)
    subst heq
    exact le_rfl
  | (key, e) :: rest, best, maxSim, hthr, hnone, hsome, hgood, r, hr => by
    by_cases hemb : e.embedding.length = 0
    · simp only [getSimilarScan, if_pos hemb] at hr
      obtain ⟨c1, c2, c3, c4⟩ := getSimilarScan_some qe thr Good rest best maxSim
        hthr hnone hsome (fun p hp => hgood p (List.mem_cons_of_mem _ hp)) r hr
      refine ⟨c1, c2, ?_, c4⟩
      intro p hp hpne
      rcases List.mem_cons.mp hp with rfl | hp'
      · exact absurd (by simpa [← List.length_eq_zero] using hpne) (by simpa using hemb)
      · exact c3 p hp' hpne
    · have hne : e.embedding ≠ [] := by simpa [← List.length_eq_zero] using hemb
      by_cases hcmp : cosineSimilarity qe e.embedding > maxSim
      · simp only [getSimilarScan, if_neg hemb, if_pos hcmp] at hr
        obtain ⟨c1, c2, c3, c4⟩ := getSimilarScan_some qe thr Good rest
          (some { response := e.response,
                  similarity := cosineSimilarity qe e.embedding,
                  cacheKey := key.drop 6 })
          (cosineSimilarity qe e.embedding)
          (hthr.trans hcmp.le)
          (fun h => by cases h)
          (fun r0 h0 => by
            cases h0
            exact ⟨rfl, lt_of_le_of_lt hthr hcmp, hgood (key, e) (by simp) hne⟩)
          (fun p hp => hgood p (List.mem_cons_of_mem _ hp)) r hr
        have hhead : cosineSimilarity qe e.embedding ≤ r.similarity := c4 _ rfl
        refine ⟨c1, c2, ?_, ?_⟩
        · intro p hp hpne
          rcases List.mem_cons.mp hp with rfl | hp'
          · exact hhead
          · exact c3 p hp' hpne
        · intro r0 h0
          obtain ⟨hms, _, _⟩ := hsome r0 h0
          exact le_trans (hms ▸ hcmp.le) hhead
      · simp only [getSimilarScan, if_neg hemb, if_neg hcmp] at hr
        obtain ⟨c1, c2, c3, c4⟩ := getSimilarScan_some qe thr Good rest best maxSim
          hthr hnone hsome (fun p hp => hgood p (List.mem_cons_of_mem _ hp)) r hr
        have hmax : maxSim ≤ r.similarity := by
          cases hb : best with
          | none => exact (hnone hb) ▸ c1.le
          | some r0 => exact ((hsome r0 hb).1) ▸ c4 r0 hb
        refine ⟨c1, c2, ?_, c4⟩
        intro p hp hpne
        rcases List.mem_cons.mp hp with rfl | hp'
        · exact le_trans (not_lt.mp hcmp) hmax
        · exact c3 p hp' hpne

/-- A scan that ends with no match started with no match and saw no embedded
entry beat its running maximum (the best match can never revert to `none`,
and the running maximum only changes when a match is recorded). -/
theorem getSimilarScan_none (qe : List ℚ) :
    ∀ (entries : List (String × CachedEntry)) (best : Option SemanticCacheResult)
      (maxSim : ℝ),
      getSimilarScan qe entries best maxSim = none →
      best = none ∧ ∀ p ∈ entries, p.2.embedding ≠ [] →
        cosineSimilarity qe p.2.embedding ≤ maxSim
  | [], best, maxSim, h => ⟨h, by simp⟩
  | (key, e) :: rest, best, maxSim, h => by
    by_cases hemb : e.embedding.length = 0
    · simp only [getSimilarScan, if_pos hemb] at h
      obtain ⟨hb, hall⟩ := getSimilarScan_none qe rest best maxSim h
      refine ⟨hb, ?_⟩
      intro p hp hpne
      rcases List.mem_cons.mp hp with rfl | hp'
      · exact absurd (by simpa [← List.length_eq_zero] using hpne) (by simpa using hemb)
      · exact hall p hp' hpne
    · by_cases hcmp : cosineSimilarity qe e.embedding > maxSim
      · simp only [getSimilarScan, if_neg hemb, if_pos hcmp] at h
        obtain ⟨hb, _⟩ := getSimilarScan_none qe rest _ _ h
        cases hb
      · simp only [getSimilarScan, if_neg hemb, if_neg hcmp] at h
        obtain ⟨hb, hall⟩ := getSimilarScan_none qe rest best maxSim h
        refine ⟨hb, ?_⟩
        intro p hp hpne
        rcases List.mem_cons.mp hp with rfl | hp'
        · exact not_lt.mp hcmp
        · exact hall p hp' hpne

/-- Claim C4.  `GetSimilar` returns a match exactly as specified: a returned
match has similarity strictly above the threshold, originates from a stored
entry carrying an embedding (response and prefix-stripped key taken from that
entry), and its similarity is maximal among all embedded entries; a match IS
returned whenever some embedded entry's similarity strictly exceeds the
threshold; and when no embedded entry exceeds the threshold the scan returns
`none` (entries without embeddings are skipped).  The cosine similarity
itself is `⟨a,b⟩ / (‖a‖·‖b‖)`, and `0` whenever the lengths differ or either
norm vanishes. -/
theorem GetSimilar_spec (qe : List ℚ) (thr : ℝ)
    (entries : List (String × CachedEntry)) :
    (∀ r, GetSimilar qe thr entries = some r →
      thr < r.similarity ∧
      (∃ p ∈ entries, p.2.embedding ≠ [] ∧
        r.similarity = cosineSimilarity qe p.2.embedding ∧
        r.response = p.2.response ∧ r.cacheKey = p.1.drop 6) ∧
      (∀ p ∈ entries, p.2.embedding ≠ [] →
        cosineSimilarity qe p.2.embedding ≤ r.similarity)) ∧
    ((∃ p ∈ entries, p.2.embedding ≠ [] ∧
        thr < cosineSimilarity qe p.2.embedding) →
      ∃ r, GetSimilar qe thr entries = some r) ∧
    ((∀ p ∈ entries, p.2.embedding ≠ [] →
        cosineSimilarity qe p.2.embedding ≤ thr) →
      GetSimilar qe thr entries = none) ∧
    (∀ a b : List ℚ, a.length ≠ b.length → cosineSimilarity a b = 0) ∧
    (∀ a b : List ℚ,
      (a.map (fun x => x * x)).sum = 0 ∨ (b.map (fun x => x * x)).sum = 0 →
      cosineSimilarity a b = 0) := by
  refine ⟨?_, ?_, ?_, ?_, ?_⟩
  · intro r hr
    have := getSimilarScan_some qe thr
      (fun r => ∃ p ∈ entries, p.2.embedding ≠ [] ∧
        r.similarity = cosineSimilarity qe p.2.embedding ∧
        r.response = p.2.response ∧ r.cacheKey = p.1.drop 6)
      entries none thr le_rfl (fun _ => rfl) (fun r0 h0 => by cases h0)
      (fun p hp hne => ⟨p, hp, hne, rfl, rfl, rfl⟩) r hr
    exact ⟨this.1, this.2.1, this.2.2.1⟩
  · rintro ⟨p, hp, hne, hgt⟩
    cases h : GetSimilar qe thr entries with
    | some r => exact ⟨r, rfl⟩
    | none =>
      obtain ⟨_, hall⟩ := getSimilarScan_none qe entries none thr h
      exact absurd (hall p hp hne) (not_le.mpr hgt)
  · intro h
    exact getSimilarScan_stay qe entries none thr h
  · intro a b h
    simp only [cosineSimilarity, if_pos h]
  · intro a b h
    by_cases hl : a.length ≠ b.length
    · simp only [cosineSimilarity, if_pos hl]
    · simp only [cosineSimilarity, if_neg hl, if_pos h]

/-- Witness for C4.  With query embedding `[1]` and threshold `0`: an entry
embedded as `[1]` has similarity `1 > 0`, so the theorem guarantees a match
is returned (and the scan indeed returns that entry's response with
similarity 1 and the `query:`-stripped key); an entry embedded as `[0]` has
zero norm, hence similarity `0 ≤ 0`, and the scan reports no match. -/
theorem GetSimilar_spec_witness :
    (∃ r, GetSimilar [1] 0
        [("query:k", { query := "x", embedding := [1], response := "r" })]
      = some r) ∧
    GetSimilar [1] 0 [("query:k", { query := "x", embedding := [1], response := "r" })]
      = some { response := "r", similarity := 1, cacheKey := "k" } ∧
    GetSimilar [1] 0 [("query:k", { query := "x", embedding := [0], response := "r" })]
      = none := by
  have hcos : cosineSimilarity [1] ([1] : List ℚ) = 1 := by
    have hz : (List.zipWith (fun x y : ℚ => x * y) [1] [1]).sum = 1 := by
      norm_num [List.zipWith]
    have hm : (([1] : List ℚ).map (fun x => x * x)).sum = 1 := by norm_num
    simp only [cosineSimilarity, hz, hm]
    rw [if_neg (by norm_num), if_neg (by norm_num)]
    push_cast
    rw [Real.sqrt_one]
    norm_num
  refine ⟨?_, ?_, ?_⟩
  · refine (GetSimilar_spec [1] 0 _).2.1
      ⟨("query:k", { query := "x", embedding := [1], response := "r" }),
        by simp, by simp, ?_⟩
    rw [hcos]
    norm_num
  · have hkey : ("query:k").drop 6 = "k" := by decide
    simp only [GetSimilar, getSimilarScan, hcos, hkey]
    norm_num
  · refine (GetSimilar_spec [1] 0 _).2.2.1 ?_
    intro p hp hne
    have hp' : p = ("query:k",
        ({ query := "x", embedding := [0], response := "r" } : CachedEntry)) :=
      List.mem_singleton.mp hp
    subst hp'
    have hz : cosineSimilarity [1] ([0] : List ℚ) = 0 := by
      have : (([0] : List ℚ).map (fun x => x * x)).sum = 0 := by norm_num
      simp only [cosineSimilarity, if_pos (Or.inr this)]
      simp
    simp [hz]

set_option maxRecDepth 100000 in
/-- RFC 1321 test vector: the MD5 of the empty message. -/
theorem md5_empty_vector :
    String.mk (hexBytes (md5Bytes (utf8Bytes "".toList)))
      = "d41d8cd98f00b204e9800998ecf8427e" := by decide

set_option maxRecDepth 100000 in
/-- RFC 1321 test vector: the MD5 of `"abc"`. -/
theorem md5_abc_vector :
    String.mk (hexBytes (md5Bytes (utf8Bytes "abc".toList)))
      = "900150983cd24fb0d6963f7d28e17f72" := by decide
